import Mathlib

/-!
Verification of the firmware-bundling module `host/lib/bundle_firmware.py`
(class `Bundle`). The Python code is shallowly embedded below:

* Python byte strings are `PyBytes` (a length plus a byte-valued function);
* Python arbitrary-precision integers are `Int`, with the two's-complement
  bitwise operators `|`, `&`, `~` embedded as `pyOr`, `pyAnd`, `pyNot`;
* `str.split`, `int(s, base=16)` and dictionary lookup are embedded as the
  structurally recursive functions `pySplit`, `pyIntHex16`, `pyDictGet`;
* functions that can raise return `Except`; the file-writing side effects of
  `ConfigureExynosBl2` are explicit state passing over a `FileStore`.
-/

deriving instance DecidableEq for Except

/-! ## Python two's-complement bitwise operators on unbounded integers -/

/-- Fuelled binary bitwise combination of two naturals, least significant bit
first.  The fuel `n + m + 1` used below always dominates the bit length. -/
def natBitwise (f : Bool → Bool → Bool) : Nat → Nat → Nat → Nat
  | 0, _, _ => 0
  | fuel + 1, n, m =>
    if n = 0 ∧ m = 0 then 0
    else (if f (decide (n % 2 = 1)) (decide (m % 2 = 1)) then 1 else 0) +
      2 * natBitwise f fuel (n / 2) (m / 2)

def natOr (n m : Nat) : Nat := natBitwise or (n + m + 1) n m

def natAnd (n m : Nat) : Nat := natBitwise and (n + m + 1) n m

def natDiff (n m : Nat) : Nat := natBitwise (fun a b => a && !b) (n + m + 1) n m

/-- Python `~v`, which is `-v - 1` on arbitrary-precision integers. -/
def pyNot (v : Int) : Int := -v - 1

/-- Python `a | b` on signed arbitrary-precision integers. -/
def pyOr (a b : Int) : Int :=
  if 0 ≤ a then
    if 0 ≤ b then Int.ofNat (natOr a.toNat b.toNat)
    else pyNot (Int.ofNat (natDiff (pyNot b).toNat a.toNat))
  else
    if 0 ≤ b then pyNot (Int.ofNat (natDiff (pyNot a).toNat b.toNat))
    else pyNot (Int.ofNat (natAnd (pyNot a).toNat (pyNot b).toNat))

/-- Python `a & b` on signed arbitrary-precision integers. -/
def pyAnd (a b : Int) : Int :=
  if 0 ≤ a then
    if 0 ≤ b then Int.ofNat (natAnd a.toNat b.toNat)
    else Int.ofNat (natDiff a.toNat (pyNot b).toNat)
  else
    if 0 ≤ b then Int.ofNat (natDiff b.toNat (pyNot a).toNat)
    else pyNot (Int.ofNat (natOr (pyNot a).toNat (pyNot b).toNat))

/-! ## Byte strings -/

/-- An immutable Python byte string: a length and the byte at each index
(indices `< size` are meaningful). -/
structure PyBytes where
  size : Nat
  byte : Nat → Nat

/-- The little-endian 32-bit word starting at byte offset `i`, as read by
`struct.unpack('<I', data[i:i + 4])` once the slice is known to have 4 bytes. -/
def wordAt (d : PyBytes) (i : Nat) : Nat :=
  d.byte i + 256 * d.byte (i + 1) + 65536 * d.byte (i + 2) +
    16777216 * d.byte (i + 3)

/-- `struct.unpack('<I', data[i:i + 4])`: the slice holds 4 bytes exactly when
`i + 4 ≤ size`; a shorter slice makes `unpack` raise `struct.error`. -/
def readWord (d : PyBytes) (i : Nat) : Option Nat :=
  if i + 4 ≤ d.size then some (wordAt d i) else none

/-- `struct.pack('<L', v)` for `0 ≤ v < 2^32`: four little-endian bytes. -/
def pack4 (v : Nat) : List Nat :=
  [v % 256, v / 256 % 256, v / 65536 % 256, v / 16777216 % 256]

/-- Sum of the first `n` bytes of `d` (the value of `sum(ord(ch) ...)`). -/
def sumBytes (d : PyBytes) : Nat → Nat
  | 0 => 0
  | n + 1 => sumBytes d n + d.byte n

/-- Python `a + b` on byte strings. -/
def pyAppend (a b : PyBytes) : PyBytes :=
  ⟨a.size + b.size, fun i => if i < a.size then a.byte i else b.byte (i - a.size)⟩

/-- Python `data[:pos] + new + data[pos + len(new):]` with `new` a byte list.
Slice bounds clamp to the string length, as in Python. -/
def spliceBytes (d : PyBytes) (pos : Nat) (new : List Nat) : PyBytes :=
  let p := min pos d.size
  let tail := d.size - (pos + new.length)
  ⟨p + new.length + tail, fun i =>
    if i < p then d.byte i
    else if i < p + new.length then new.getD (i - p) 0
    else d.byte (pos + new.length + (i - (p + new.length)))⟩

/-! ## GBB flags: `gbb_flag_properties` and `DecodeGBBFlagsFromOptions`

Flag-name strings are embedded as `List Char`.  The flag values are `Int`
because the Python function can return a negative number on a `-`-prefixed
hexadecimal string. -/

/-- The `gbb_flag_properties` dictionary of `bundle_firmware.py`. -/
def gbb_flag_properties : List (List Char × Int) :=
  [("dev-screen-short-delay".data, 1),
   ("load-option-roms".data, 2),
   ("enable-alternate-os".data, 4),
   ("force-dev-switch-on".data, 8),
   ("force-dev-boot-usb".data, 16),
   ("disable-fw-rollback-check".data, 32),
   ("enter-triggers-tonorm".data, 64),
   ("force-dev-boot-legacy".data, 128)]

/-- Python `dict.get(key)`: `None` when the key is absent. -/
def pyDictGet : List (List Char × Int) → List Char → Option Int
  | [], _ => none
  | (k, v) :: rest, n => if k = n then some v else pyDictGet rest n

/-- Python `s.split(sep)` for a single-character separator. -/
def pySplit (sep : Char) : List Char → List (List Char)
  | [] => [[]]
  | c :: cs =>
    match pySplit sep cs with
    | t :: ts => if c = sep then [] :: t :: ts else (c :: t) :: ts
    | [] => [[c]]

/-- The whitespace characters stripped by Python `int(s, 16)`. -/
def pyWSChars : List Char := [' ', '\t', '\n', '\x0d', '\x0b', '\x0c']

def isWS (c : Char) : Bool := pyWSChars.contains c

/-- Strip leading and trailing whitespace. -/
def stripWS (s : List Char) : List Char :=
  ((s.dropWhile isWS).reverse.dropWhile isWS).reverse

def isHexDigit (c : Char) : Bool :=
  ('0' ≤ c && c ≤ '9') || ('a' ≤ c && c ≤ 'f') || ('A' ≤ c && c ≤ 'F')

/-- Numeric value of a hexadecimal digit. -/
def hexVal (c : Char) : Nat :=
  if c ≤ '9' then c.toNat - 48 else if c ≤ 'F' then c.toNat - 55 else c.toNat - 87

/-- Remaining hexadecimal digits after at least one has been read. -/
def hexDigitsAux (acc : Nat) : List Char → Option Nat
  | [] => some acc
  | c :: cs => if isHexDigit c then hexDigitsAux (16 * acc + hexVal c) cs else none

/-- One or more hexadecimal digits, and nothing else. -/
def hexDigits1 : List Char → Option Nat
  | [] => none
  | c :: cs => if isHexDigit c then hexDigitsAux (hexVal c) cs else none

/-- Digits of `int(s, 16)` after the optional sign: an optional `0x`/`0X`
prefix followed by one or more hexadecimal digits. -/
def hexBody (s : List Char) : Option Nat :=
  match s with
  | '0' :: c :: rest => if c = 'x' ∨ c = 'X' then hexDigits1 rest else hexDigits1 s
  | _ => hexDigits1 s

/-- Python `int(s, base=16)`: optional surrounding whitespace, an optional
sign, an optional `0x` prefix, then hexadecimal digits.  `none` models the
`ValueError` swallowed by the bare `except` in the source. -/
def pyIntHex16 (s : List Char) : Option Int :=
  match stripWS s with
  | [] => Option.map (fun n => (n : Int)) (hexBody [])
  | c :: cs =>
    if c = '+' then Option.map (fun n => (n : Int)) (hexBody cs)
    else if c = '-' then Option.map (fun n => -(n : Int)) (hexBody cs)
    else Option.map (fun n => (n : Int)) (hexBody (c :: cs))

/-- Errors of `DecodeGBBFlagsFromOptions`: `invalidFlag` is the
`ValueError("Invalid GBB flag ...")` raised by the source; `indexError` is the
uncaught Python `IndexError` from `flag[0]` on an empty token. -/
inductive GbbError
  | invalidFlag (name : List Char)
  | indexError
deriving DecidableEq

/-- The `for flag in adjustments.split(','):` loop of
`DecodeGBBFlagsFromOptions`, carrying `use_base_value` and `gbb_flags`. -/
def applyAdjustments (use_base_value : Bool) (gbb_flags : Int) :
    List (List Char) → Except GbbError Int
  | [] => .ok gbb_flags
  | flag :: rest =>
    match flag with
    | [] => .error .indexError
    | c :: cs =>
      if c = '-' ∨ c = '+' then
        match pyDictGet gbb_flag_properties cs with
        | none => .error (.invalidFlag cs)
        | some value =>
          if value = 0 then .error (.invalidFlag cs)
          else if c = '+' then
            applyAdjustments use_base_value (pyOr gbb_flags value) rest
          else
            applyAdjustments use_base_value (pyAnd gbb_flags (pyNot value)) rest
      else
        match pyDictGet gbb_flag_properties (c :: cs) with
        | none => .error (.invalidFlag (c :: cs))
        | some value =>
          if value = 0 then .error (.invalidFlag (c :: cs))
          else if use_base_value then applyAdjustments false (pyOr 0 value) rest
          else applyAdjustments use_base_value (pyOr gbb_flags value) rest

/-- `Bundle.DecodeGBBFlagsFromOptions(gbb_flags, adjustments)`. -/
def DecodeGBBFlagsFromOptions (gbb_flags : Int) (adjustments : List Char) :
    Except GbbError Int :=
  if adjustments.isEmpty then .ok gbb_flags
  else
    match pyIntHex16 adjustments with
    | some v => .ok v
    | none => applyAdjustments true gbb_flags (pySplit ',' adjustments)

/-- The value denoted by a string of raw hexadecimal digits. -/
def hexStringValue (s : List Char) : Int :=
  ((s.foldl (fun a c => 16 * a + hexVal c) 0 : Nat) : Int)

/-! ## `DecodeTextBase` and `CalcTextBase` -/

/-- Errors raised as Python exceptions or `CmdError` by the embedded code. -/
inductive CmdErr
  | structError
  | ioError
  | notFound
  | unsupportedVersion (version : Nat)
  | corruptBlock
  | unknownMemType
  | unknownMemManuf
  | invalidBootSource
  | signedSizeChanged (oldSize newSize : Nat)
deriving DecidableEq

/-- The scan positions of `DecodeTextBase`:
`for start in (0, 0x4000): for i in range(start, start + 160, 4)`, each
position paired with the `start` of the window it is scanned in. -/
def scanOffsets : List (Nat × Nat) :=
  ((List.range 40).map fun k => (0, 4 * k)) ++
    ((List.range 40).map fun k => (0x4000, 0x4000 + 4 * k))

/-- The scan loop of `DecodeTextBase`.  The `found` flag persists across the
two windows; once set, the next word read is returned minus the `start` of the
window that word is scanned in. -/
def decodeScan (d : PyBytes) (found : Bool) :
    List (Nat × Nat) → Except CmdErr (Option Int)
  | [] => .ok none
  | (start, i) :: rest =>
    match readWord d i with
    | none => .error .structError
    | some value =>
      if found then .ok (some ((value : Int) - (start : Int)))
      else if value = 0x12345678 then decodeScan d true rest
      else decodeScan d false rest

/-- `Bundle.DecodeTextBase(data)`. -/
def DecodeTextBase (d : PyBytes) : Except CmdErr (Option Int) :=
  decodeScan d false scanOffsets

/-- `Bundle.CalcTextBase(name, fdt, fname)`.  The first argument is the raw
value of `fdt.GetInt('/chromeos-config', 'textbase', 0)`; the second is the
content of the file `fname`.  The returned `Bool` records whether the
TEXT_BASE-mismatch warning was emitted. -/
def CalcTextBase (fdtTextBaseRaw : Int) (d : PyBytes) :
    Except CmdErr (Int × Bool) :=
  let fdt_text_base := pyAnd fdtTextBaseRaw 4294967295
  match DecodeTextBase d with
  | .error e => .error e
  | .ok text_base =>
    match text_base with
    | some t =>
      if t ≠ 0 ∧ t ≠ fdt_text_base then .ok (t, true)
      else .ok (fdt_text_base, false)
    | none => .ok (fdt_text_base, false)

/-- A buffer with the header marker at offset `0x4000` followed by the word
`0x10c000`: the example of the specification. -/
def tbExample : PyBytes :=
  ⟨16544, fun i =>
    if i = 16384 then 0x78 else if i = 16385 then 0x56
    else if i = 16386 then 0x34 else if i = 16387 then 0x12
    else if i = 16389 then 0xc0 else if i = 16390 then 0x10 else 0⟩

/-- A buffer whose only marker sits at offset 156, the last scanned word of
the first window, with the word `0x10c000` at offset `0x4000`. -/
def tbEdge : PyBytes :=
  ⟨16544, fun i =>
    if i = 156 then 0x78 else if i = 157 then 0x56
    else if i = 158 then 0x34 else if i = 159 then 0x12
    else if i = 16385 then 0xc0 else if i = 16386 then 0x10 else 0⟩

/-- An 8-byte buffer with the marker at offset 0 followed by the word 0. -/
def tbZero : PyBytes :=
  ⟨8, fun i =>
    if i = 0 then 0x78 else if i = 1 then 0x56
    else if i = 2 then 0x34 else if i = 3 then 0x12 else 0⟩

/-- An 8-byte buffer with the marker at offset 0 followed by `0x10c000`. -/
def tbPlain : PyBytes :=
  ⟨8, fun i =>
    if i = 0 then 0x78 else if i = 1 then 0x56
    else if i = 2 then 0x34 else if i = 3 then 0x12
    else if i = 5 then 0xc0 else if i = 6 then 0x10 else 0⟩


/-! ## `_CreateBootStub`

The external signer (`_SignBootstub`, which shells out to `cbootimage` with a
fixed BCT) is a capability `sign : Int → PyBytes → PyBytes` mapping the text
base and the bootstub content to the signed image content.  The device tree is
a capability `fdtBytes : Nat → PyBytes` giving the serialized tree as a
function of its `/config/postload-text-offset` property, the only property
`_CreateBootStub` rewrites between the two serializations it reads. -/

/-- `Bundle._CreateBootStub(uboot, base_fdt, postload)`.  Returns the contents
of the returned `bootstub` and `signed-postload.bin` files. -/
def CreateBootStub (fdtTextBaseRaw : Int) (uboot_data : PyBytes)
    (fdtBytes : Nat → PyBytes) (postload : Option PyBytes)
    (sign : Int → PyBytes → PyBytes) : Except CmdErr (PyBytes × PyBytes) :=
  match CalcTextBase fdtTextBaseRaw uboot_data with
  | .error e => .error e
  | .ok (text_base, _) =>
    let bootstub := pyAppend uboot_data (fdtBytes 0xffffffff)
    let signed := sign text_base bootstub
    let data := signed
    match postload with
    | none => .ok (bootstub, data)
    | some pl =>
      let bootstub2 := pyAppend bootstub pl
      let postload_bootstub := pyAppend uboot_data (fdtBytes data.size)
      let signed2 := sign text_base postload_bootstub
      if data.size ≠ signed2.size then
        .error (.signedSizeChanged data.size signed2.size)
      else .ok (bootstub2, pyAppend signed2 pl)

/-! ## The Exynos BL2 parameter patcher -/

/-- The values `_UpdateBl2Parameters` reads from the device tree, each `none`
when the property is absent (`GetString`/`GetInt` then yield the default the
call site passes). -/
structure DmcConfig where
  memType : Option String
  memManuf : Option String
  clockFrequency : Option Int

def mem_types : List String := ["ddr2", "ddr3", "lpddr2", "lpddr3"]

def mem_manufs : List String := ["autodetect", "elpida", "samsung"]

/-- The per-parameter value computation of `_UpdateBl2Parameters`: `param` is
the parameter code byte, `value` the 32-bit word currently in the block. -/
def paramValue (fdt : DmcConfig) (spl_source : String) (spl_load_size : Nat)
    (param value : Nat) : Except CmdErr Int :=
  if param = 109 then        -- 'm': memory type
    let mem_type := match fdt.memType with | none => "ddr3" | some s => s
    if mem_types.contains mem_type then .ok ((mem_types.indexOf mem_type : Nat) : Int)
    else .error .unknownMemType
  else if param = 77 then    -- 'M': memory manufacturer
    let mem_manuf := match fdt.memManuf with | none => "samsung" | some s => s
    if mem_manufs.contains mem_manuf then
      .ok ((mem_manufs.indexOf mem_manuf : Nat) : Int)
    else .error .unknownMemManuf
  else if param = 102 then   -- 'f': memory clock frequency
    let g := match fdt.clockFrequency with | none => (-1 : Int) | some c => c
    let mem_freq := if g = -1 then 800000000 else g
    .ok (Int.fdiv mem_freq 1000000)
  else if param = 118 then   -- 'v': memory interleave
    .ok 31
  else if param = 117 then   -- 'u': U-Boot size, rounded up to a 4KiB multiple
    .ok (pyAnd ((spl_load_size : Int) + 0xfff) (pyNot 0xfff))
  else if param = 98 then    -- 'b': boot source
    if spl_source = "straps" then .ok 32
    else if spl_source = "emmc" then .ok 4
    else if spl_source = "spi" then .ok 20
    else if spl_source = "usb" then .ok 33
    else .error .invalidBootSource
  else .ok (value : Int)     -- unknown code: warning only, value left as read

/-- The `for param in param_list:` loop: read the current word, compute the
new value, pack it little-endian (`struct.pack('<L', v)` raises on a value
outside `[0, 2^32)`), and concatenate. -/
def writeParams (fdt : DmcConfig) (spl_source : String) (spl_load_size : Nat)
    (d : PyBytes) : Nat → List Nat → Except CmdErr (List Nat)
  | _, [] => .ok []
  | pos, param :: rest =>
    match readWord d pos with
    | none => .error .structError
    | some value =>
      match paramValue fdt spl_source spl_load_size param value with
      | .error e => .error e
      | .ok v =>
        if v < 0 ∨ (4294967296 : Int) ≤ v then .error .structError
        else
          match writeParams fdt spl_source spl_load_size d (pos + 4) rest with
          | .error e => .error e
          | .ok tail => .ok (pack4 v.toNat ++ tail)

/-- Index of the first NUL byte at position `≥ i`, scanning at most `fuel`
bytes. -/
def findNulAux (d : PyBytes) : Nat → Nat → Option Nat
  | _, 0 => none
  | i, fuel + 1 => if d.byte i = 0 then some i else findNulAux d (i + 1) fuel

/-- Absolute index of the first NUL byte of `data[i:]`, as located by
`data[i:].find('\0')`; `none` models find's `-1`. -/
def findNul (d : PyBytes) (i : Nat) : Option Nat := findNulAux d i (d.size - i)

/-- `Bundle._UpdateBl2Parameters(fdt, spl_load_size, data, pos)`.  `pos` is an
`Int` because the caller passes `data.rfind(marker)`, which is `-1` when the
marker is absent.  A `pos` below `-4` would index from the end in Python; it
cannot arise from `rfind` and is mapped to `structError` here. -/
def UpdateBl2Parameters (fdt : DmcConfig) (spl_source : String)
    (spl_load_size : Nat) (d : PyBytes) (pos : Int) : Except CmdErr PyBytes :=
  if pos < -4 then .error .structError
  else if (d.size : Int) < pos + 12 then .error .structError
  else
    let p4 : Nat := (pos + 4).toNat
    let version := wordAt d p4
    let size := wordAt d (p4 + 4)
    if version ≠ 1 then .error (.unsupportedVersion version)
    else if (d.size : Int) < pos + (size : Int) then .error .corruptBlock
    else
      -- pos += 12; param_list = data[pos:/* up to NUL, data[pos:][:-1] if none */]
      let pos2 : Nat := p4 + 8
      let nparams : Nat :=
        match findNul d pos2 with
        | some k => k - pos2
        | none => (d.size - pos2) - 1
      -- pos += (param_len + 4) & ~3  (zero when find returned -1)
      let skip : Nat :=
        match findNul d pos2 with
        | some k => (pyAnd ((k - pos2 : Nat) + 4) (pyNot 3)).toNat
        | none => 0
      let params := (List.range nparams).map fun j => d.byte (pos2 + j)
      let pos3 := pos2 + skip
      match writeParams fdt spl_source spl_load_size d pos3 params with
      | .error e => .error e
      | .ok new_data => .ok (spliceBytes d pos3 new_data)

/-- `Bundle._UpdateChecksum(data)`: rewrite the last 4 bytes to the
little-endian 32-bit sum of all preceding bytes. -/
def UpdateChecksum (d : PyBytes) : PyBytes :=
  spliceBytes d (d.size - 4) (pack4 (sumBytes d (d.size - 4) % 4294967296))

/-- `data.rfind(marker)` scanning downward for the 4-byte marker word `m`:
the highest `k` with `k + 4 ≤ size` and the word at `k` equal to `m`, and
`-1` when there is none. -/
def rfindAux (d : PyBytes) (m : Nat) : Nat → Int
  | 0 => -1
  | k + 1 => if k + 4 ≤ d.size ∧ wordAt d k = m then (k : Int) else rfindAux d m k

def rfindWord (d : PyBytes) (m : Nat) : Int := rfindAux d m d.size

/-- The file system seen through `Tools.ReadFile`/`Tools.WriteFile`. -/
abbrev FileStore := String → Option PyBytes

def updateStore (s : FileStore) (k : String) (v : PyBytes) : FileStore :=
  fun q => if q = k then some v else s q

/-- Path of the fresh BL2 copy written by `ConfigureExynosBl2`:
`os.path.join(self._tools.outdir, 'updated-spl%s.bin' % name)`. -/
def bl2OutPath (outdir name : String) : String :=
  outdir ++ "/updated-spl" ++ name ++ ".bin"

/-- `Bundle.ConfigureExynosBl2(fdt, spl_load_size, orig_bl2, name)`.  Returns
the result (path of the patched copy, or the raised error) together with the
final file store.  Note the marker test of the source is `if not pos:`, which
is true only for `pos == 0` — `rfind`'s no-match result `-1` is truthy. -/
def ConfigureExynosBl2 (fdt : DmcConfig) (spl_source : String)
    (spl_load_size : Nat) (store : FileStore) (orig_bl2 outdir name : String) :
    Except CmdErr String × FileStore :=
  let bl2 := bl2OutPath outdir name
  match store orig_bl2 with
  | none => (.error .ioError, store)
  | some data0 =>
    let store1 := updateStore store bl2 data0
    -- data = self._tools.ReadFile(bl2): re-reads the copy just written,
    -- which is data0 again.
    let pos := rfindWord data0 0xdeadbeef
    if pos = 0 then (.error .notFound, store1)
    else
      match UpdateBl2Parameters fdt spl_source spl_load_size data0 pos with
      | .error e => (.error e, store1)
      | .ok data1 => (.ok bl2, updateStore store1 bl2 (UpdateChecksum data1))

/-! ### Concrete BL2 blobs used by the witnesses and counterexamples -/

/-- A 28-byte BL2 blob with a well-formed parameter block: marker
`0xdeadbeef` at offset 4, version 1, declared size 16, parameter list `"u"`,
one value slot at offset 20, checksum slot at offset 24. -/
def bl2Good : PyBytes :=
  ⟨28, fun i =>
    if i = 4 then 0xef else if i = 5 then 0xbe
    else if i = 6 then 0xad else if i = 7 then 0xde
    else if i = 8 then 1
    else if i = 12 then 16
    else if i = 16 then 117
    else if i = 20 then 9 else if i = 21 then 9
    else if i = 22 then 9 else if i = 23 then 9
    else if i = 24 then 7 else if i = 25 then 7
    else if i = 26 then 7 else if i = 27 then 7 else 0⟩

/-- A 20-byte blob containing no `0xdeadbeef` marker at all, yet laid out so
that parsing at `rfind`'s failure value `-1` succeeds: the word at offset 3
(`pos + 4`) is 1 (the version), the declared size is 0, and the byte at
offset 11 is NUL (an empty parameter list). -/
def bl2NoMarker : PyBytes :=
  ⟨20, fun i => if i = 0 then 5 else if i = 3 then 1 else 0⟩

/-- A 24-byte blob whose only `0xdeadbeef` marker is at offset 0, with a
well-formed version-1 block behind it. -/
def bl2MarkerAt0 : PyBytes :=
  ⟨24, fun i =>
    if i = 0 then 0xef else if i = 1 then 0xbe
    else if i = 2 then 0xad else if i = 3 then 0xde
    else if i = 4 then 1
    else if i = 12 then 0 else 0⟩

def dmcEmpty : DmcConfig := ⟨none, none, none⟩

def storeGood : FileStore := fun p => if p = "bl2.bin" then some bl2Good else none

def storeNoMarker : FileStore :=
  fun p => if p = "bl2.bin" then some bl2NoMarker else none

def storeMarkerAt0 : FileStore :=
  fun p => if p = "bl2.bin" then some bl2MarkerAt0 else none

/-! ## Lemmas about the hexadecimal parser -/

theorem hexDigitsAux_all (s : List Char) :
    ∀ acc, (∀ c ∈ s, isHexDigit c = true) →
      hexDigitsAux acc s = some (s.foldl (fun a c => 16 * a + hexVal c) acc) := by
  induction s with
  | nil => intro acc _; rfl
  | cons c cs ih =>
    intro acc h
    have hc : isHexDigit c = true := h c (List.mem_cons_self _ _)
    simp only [hexDigitsAux, hc, if_true, List.foldl_cons]
    exact ih _ fun x hx => h x (List.mem_cons_of_mem _ hx)

theorem dropWhile_eq_self_of_all {p : Char → Bool} {s : List Char}
    (h : ∀ c ∈ s, p c = false) : s.dropWhile p = s := by
  cases s with
  | nil => rfl
  | cons a l => simp [List.dropWhile, h a (List.mem_cons_self _ _)]

theorem stripWS_eq_self {s : List Char} (h : ∀ c ∈ s, isWS c = false) :
    stripWS s = s := by
  unfold stripWS
  rw [dropWhile_eq_self_of_all h,
    dropWhile_eq_self_of_all fun c hc => h c (by simpa using hc)]
  exact s.reverse_reverse

theorem isWS_false_of_hex {c : Char} (h : isHexDigit c = true) :
    isWS c = false := by
  by_contra hws
  have hmem : c ∈ pyWSChars := by
    have hws' : isWS c = true := by simpa using hws
    simpa [isWS] using hws'
  fin_cases hmem <;> exact absurd h (by decide)

theorem hexBody_all {s : List Char} (h : ∀ c ∈ s, isHexDigit c = true) :
    hexBody s = hexDigits1 s := by
  unfold hexBody
  split
  · rename_i c rest
    have hc : isHexDigit c = true := by
      apply h; simp
    have hx : ¬(c = 'x' ∨ c = 'X') := by
      rintro (rfl | rfl) <;> exact absurd hc (by decide)
    rw [if_neg hx]
  · rfl

theorem pyIntHex16_all_hex {s : List Char} (hne : s ≠ [])
    (h : ∀ c ∈ s, isHexDigit c = true) :
    pyIntHex16 s = some (hexStringValue s) := by
  unfold pyIntHex16
  rw [stripWS_eq_self fun c hc => isWS_false_of_hex (h c hc)]
  cases s with
  | nil => exact absurd rfl hne
  | cons c cs =>
    have hc : isHexDigit c = true := h c (List.mem_cons_self _ _)
    have hplus : c ≠ '+' := by rintro rfl; exact absurd hc (by decide)
    have hminus : c ≠ '-' := by rintro rfl; exact absurd hc (by decide)
    simp only [if_neg hplus, if_neg hminus]
    rw [hexBody_all h]
    simp only [hexDigits1, hc, if_true]
    rw [hexDigitsAux_all cs _ fun x hx => h x (List.mem_cons_of_mem _ hx)]
    simp [hexStringValue]

/-- C2: an adjustment string made of raw hexadecimal digits decodes to exactly
the hexadecimal value of the string, for every base flag value `B`: the
fdt-derived base is completely overridden. -/
theorem gbb_hex_override (B : Int) (s : List Char) (hne : s ≠ [])
    (hhex : ∀ c ∈ s, isHexDigit c = true) :
    DecodeGBBFlagsFromOptions B s = .ok (hexStringValue s) := by
  unfold DecodeGBBFlagsFromOptions
  have hempty : s.isEmpty = false := by
    cases s with
    | nil => exact absurd rfl hne
    | cons c cs => rfl
  rw [pyIntHex16_all_hex hne hhex]
  simp [hempty]

/-- Witness for C2 at the specification's own example: `"c2"` applied to the
base `0x35` yields `0xc2`. -/
theorem gbb_hex_override_witness :
    DecodeGBBFlagsFromOptions 53 ("c2".data) = .ok 194 :=
  (gbb_hex_override 53 ("c2".data) (by decide) (by decide)).trans (by decide)

/-- C10: a sign-prefixed hexadecimal string is consumed whole by the
`int(adjustments, base=16)` attempt: `"+c2"` decodes to `0xc2` regardless of
the base, and `"-12"` decodes to the negative value `-0x12` instead of
clearing any flag bit. -/
theorem gbb_signed_hex_override (B : Int) :
    DecodeGBBFlagsFromOptions B ("+c2".data) = .ok 194 ∧
      DecodeGBBFlagsFromOptions B ("-12".data) = .ok (-18) ∧ (-18 : Int) < 0 :=
  ⟨rfl, rfl, by decide⟩

/-! ## Lemmas for the token-list path of `DecodeGBBFlagsFromOptions` -/

theorem hexDigitsAux_comma {s : List Char} (h : ',' ∈ s) :
    ∀ acc, hexDigitsAux acc s = none := by
  induction s with
  | nil => cases h
  | cons c cs ih =>
    intro acc
    by_cases hc : isHexDigit c = true
    · have hcc : c ≠ ',' := by rintro rfl; exact absurd hc (by decide)
      have : ',' ∈ cs := by
        rcases List.mem_cons.mp h with h1 | h1
        · exact absurd h1.symm hcc
        · exact h1
      simp only [hexDigitsAux, hc, if_true]
      exact ih this _
    · simp only [hexDigitsAux, if_neg hc]

theorem hexDigits1_comma {s : List Char} (h : ',' ∈ s) :
    hexDigits1 s = none := by
  cases s with
  | nil => cases h
  | cons c cs =>
    by_cases hc : isHexDigit c = true
    · have hcc : c ≠ ',' := by rintro rfl; exact absurd hc (by decide)
      have hmem : ',' ∈ cs := by
        rcases List.mem_cons.mp h with h1 | h1
        · exact absurd h1.symm hcc
        · exact h1
      simp only [hexDigits1, hc, if_true]
      exact hexDigitsAux_comma hmem _
    · simp only [hexDigits1, if_neg hc]

theorem hexBody_comma {s : List Char} (h : ',' ∈ s) : hexBody s = none := by
  unfold hexBody
  split
  · rename_i c rest
    by_cases hx : c = 'x' ∨ c = 'X'
    · rw [if_pos hx]
      apply hexDigits1_comma
      rcases List.mem_cons.mp h with h1 | h1
      · exact absurd h1.symm (by decide)
      rcases List.mem_cons.mp h1 with h2 | h2
      · rcases hx with rfl | rfl <;> exact absurd h2.symm (by decide)
      · exact h2
    · rw [if_neg hx]
      exact hexDigits1_comma h
  · exact hexDigits1_comma h

theorem mem_dropWhile {p : Char → Bool} {c : Char} {s : List Char}
    (h : c ∈ s) (hc : p c = false) : c ∈ s.dropWhile p := by
  induction s with
  | nil => cases h
  | cons a l ih =>
    by_cases ha : p a = true
    · have hne : c ≠ a := by rintro rfl; rw [ha] at hc; cases hc
      have : c ∈ l := by
        rcases List.mem_cons.mp h with h1 | h1
        · exact absurd h1 hne
        · exact h1
      simpa [List.dropWhile, ha] using ih this
    · have ha' : p a = false := by simpa using ha
      simpa [List.dropWhile, ha'] using h

theorem mem_stripWS {c : Char} {s : List Char} (h : c ∈ s)
    (hc : isWS c = false) : c ∈ stripWS s := by
  unfold stripWS
  rw [List.mem_reverse]
  exact mem_dropWhile (by rw [List.mem_reverse]; exact mem_dropWhile h hc) hc

theorem pyIntHex16_comma {s : List Char} (h : ',' ∈ s) :
    pyIntHex16 s = none := by
  unfold pyIntHex16
  have hmem : ',' ∈ stripWS s := mem_stripWS h (by decide)
  split
  · rename_i heq; rw [heq] at hmem; cases hmem
  · rename_i c cs heq
    rw [heq] at hmem
    by_cases hp : c = '+'
    · rw [if_pos hp]
      have : ',' ∈ cs := by
        rcases List.mem_cons.mp hmem with h1 | h1
        · subst hp; exact absurd h1.symm (by decide)
        · exact h1
      rw [hexBody_comma this]; rfl
    · rw [if_neg hp]
      by_cases hm : c = '-'
      · rw [if_pos hm]
        have : ',' ∈ cs := by
          rcases List.mem_cons.mp hmem with h1 | h1
          · subst hm; exact absurd h1.symm (by decide)
          · exact h1
        rw [hexBody_comma this]; rfl
      · rw [if_neg hm, hexBody_comma hmem]; rfl

theorem pySplit_ne_nil (sep : Char) (s : List Char) : pySplit sep s ≠ [] := by
  induction s with
  | nil => simp [pySplit]
  | cons c cs ih =>
    unfold pySplit
    split
    · split <;> simp
    · simp

theorem pySplit_sep_cons (sep : Char) (r : List Char) :
    pySplit sep (sep :: r) = [] :: pySplit sep r := by
  conv_lhs => unfold pySplit
  split
  · rename_i t ts heq; rw [if_pos rfl, heq]
  · rename_i heq; exact absurd heq (pySplit_ne_nil sep r)

theorem pySplit_no_sep {sep : Char} {s : List Char} (h : sep ∉ s) :
    pySplit sep s = [s] := by
  induction s with
  | nil => rfl
  | cons c cs ih =>
    have hc : c ≠ sep := fun hc => h (by rw [hc]; exact List.mem_cons_self _ _)
    have hcs : sep ∉ cs := fun hm => h (List.mem_cons_of_mem _ hm)
    conv_lhs => unfold pySplit
    split
    · rename_i t ts heq
      rw [ih hcs] at heq
      cases heq
      rw [if_neg hc]
    · rename_i heq; exact absurd heq (pySplit_ne_nil sep cs)

theorem pySplit_append {sep : Char} {l : List Char} (r : List Char)
    (h : sep ∉ l) : pySplit sep (l ++ sep :: r) = l :: pySplit sep r := by
  induction l with
  | nil => simpa using pySplit_sep_cons sep r
  | cons c cs ih =>
    have hc : c ≠ sep := fun hc => h (by rw [hc]; exact List.mem_cons_self _ _)
    have hcs : sep ∉ cs := fun hm => h (List.mem_cons_of_mem _ hm)
    have ih' := ih hcs
    show pySplit sep (c :: (cs ++ sep :: r)) = (c :: cs) :: pySplit sep r
    conv_lhs => unfold pySplit
    split
    · rename_i t ts heq
      rw [ih'] at heq
      cases heq
      rw [if_neg hc]
    · rename_i heq; exact absurd heq (pySplit_ne_nil sep (cs ++ sep :: r))

/-- The name a token denotes: Python strips a leading `+`/`-` before looking
the flag up in `gbb_flag_properties`. -/
def tokenName : List Char → List Char
  | [] => []
  | c :: cs => if c = '-' ∨ c = '+' then cs else c :: cs

theorem pyDictGet_mem {l : List (List Char × Int)} {n : List Char} {v : Int}
    (h : pyDictGet l n = some v) : (n, v) ∈ l := by
  induction l with
  | nil => cases h
  | cons p rest ih =>
    obtain ⟨k, w⟩ := p
    by_cases hk : k = n
    · subst hk
      simp only [pyDictGet] at h
      rw [if_pos trivial] at h
      injection h with h
      subst h
      exact List.mem_cons_self _ _
    · simp only [pyDictGet, if_neg hk] at h
      exact List.mem_cons_of_mem _ (ih h)

/-- Facts about every entry of `gbb_flag_properties`: the lookup finds it,
its value is nonzero, its name has no comma, is nonempty, and does not start
with a sign character. -/
theorem gbb_flag_facts {n : List Char} {v : Int}
    (h : (n, v) ∈ gbb_flag_properties) :
    pyDictGet gbb_flag_properties n = some v ∧ v ≠ 0 ∧ ',' ∉ n ∧ n ≠ [] ∧
      tokenName n = n := by
  fin_cases h <;> exact (by decide)

theorem gbb_values_nonzero {n : List Char} {v : Int}
    (h : pyDictGet gbb_flag_properties n = some v) : v ≠ 0 :=
  (gbb_flag_facts (pyDictGet_mem h)).2.1

theorem DecodeGBB_tokens {B : Int} {s : List Char} (hne : s ≠ [])
    (hhex : pyIntHex16 s = none) :
    DecodeGBBFlagsFromOptions B s = applyAdjustments true B (pySplit ',' s) := by
  unfold DecodeGBBFlagsFromOptions
  have hempty : s.isEmpty = false := by
    cases s with
    | nil => exact absurd rfl hne
    | cons c cs => rfl
  rw [hhex]
  simp [hempty]

theorem applyAdjustments_plus (ub : Bool) (B : Int) {n : List Char} {v : Int}
    (h : pyDictGet gbb_flag_properties n = some v) (ts : List (List Char)) :
    applyAdjustments ub B (('+' :: n) :: ts) =
      applyAdjustments ub (pyOr B v) ts := by
  have hv : v ≠ 0 := gbb_values_nonzero h
  simp +decide only [applyAdjustments, h, hv, ite_true, ite_false]

theorem applyAdjustments_minus (ub : Bool) (B : Int) {n : List Char} {v : Int}
    (h : pyDictGet gbb_flag_properties n = some v) (ts : List (List Char)) :
    applyAdjustments ub B (('-' :: n) :: ts) =
      applyAdjustments ub (pyAnd B (pyNot v)) ts := by
  have hv : v ≠ 0 := gbb_values_nonzero h
  simp +decide only [applyAdjustments, h, hv, ite_true, ite_false]

theorem tokenName_not_sign {n : List Char} {c : Char} {cs : List Char}
    (hshape : tokenName n = n) (hn : n = c :: cs) : ¬(c = '-' ∨ c = '+') := by
  intro hsign
  subst hn
  rw [tokenName, if_pos hsign] at hshape
  have := congrArg List.length hshape
  simp at this

theorem applyAdjustments_bare_true (B : Int) {n : List Char} {v : Int}
    (h : pyDictGet gbb_flag_properties n = some v) (hshape : tokenName n = n)
    (hne : n ≠ []) (ts : List (List Char)) :
    applyAdjustments true B (n :: ts) = applyAdjustments false (pyOr 0 v) ts := by
  have hv : v ≠ 0 := gbb_values_nonzero h
  obtain ⟨c, cs, rfl⟩ : ∃ c cs, n = c :: cs := by
    cases n with
    | nil => exact absurd rfl hne
    | cons c cs => exact ⟨c, cs, rfl⟩
  have hsign := tokenName_not_sign hshape rfl
  simp +decide only [applyAdjustments, h, hv, hsign, ite_true, ite_false]

theorem applyAdjustments_bare_false (B : Int) {n : List Char} {v : Int}
    (h : pyDictGet gbb_flag_properties n = some v) (hshape : tokenName n = n)
    (hne : n ≠ []) (ts : List (List Char)) :
    applyAdjustments false B (n :: ts) =
      applyAdjustments false (pyOr B v) ts := by
  have hv : v ≠ 0 := gbb_values_nonzero h
  obtain ⟨c, cs, rfl⟩ : ∃ c cs, n = c :: cs := by
    cases n with
    | nil => exact absurd rfl hne
    | cons c cs => exact ⟨c, cs, rfl⟩
  have hsign := tokenName_not_sign hshape rfl
  simp +decide only [applyAdjustments, h, hv, hsign, ite_true, ite_false]

/-- C3: over known flag tokens, processed left to right, `+name` ORs the bit
in, `-name` clears it, and a first bare token resets the working value to 0,
discarding the base; `"+a,-b,+c"` on base `B` yields `((B|a)&~b)|c`, a bare
first token instead replaces `B` by `0`, and only the first bare token
resets. -/
theorem gbb_token_semantics (B : Int) (a b c : List Char) (va vb vc : Int)
    (ha : (a, va) ∈ gbb_flag_properties) (hb : (b, vb) ∈ gbb_flag_properties)
    (hc : (c, vc) ∈ gbb_flag_properties) :
    DecodeGBBFlagsFromOptions B
        ('+' :: a ++ ',' :: '-' :: b ++ ',' :: '+' :: c) =
      .ok (pyOr (pyAnd (pyOr B va) (pyNot vb)) vc) ∧
    DecodeGBBFlagsFromOptions B (a ++ ',' :: '-' :: b ++ ',' :: '+' :: c) =
      .ok (pyOr (pyAnd (pyOr 0 va) (pyNot vb)) vc) ∧
    DecodeGBBFlagsFromOptions B (a ++ ',' :: b) = .ok (pyOr (pyOr 0 va) vb) := by
  obtain ⟨hla, hva, hca, hna, hta⟩ := gbb_flag_facts ha
  obtain ⟨hlb, hvb, hcb, hnb, htb⟩ := gbb_flag_facts hb
  obtain ⟨hlc, hvc, hcc, hnc, htc⟩ := gbb_flag_facts hc
  have hnca : ',' ∉ '+' :: a := by
    intro hm
    rcases List.mem_cons.mp hm with h1 | h1
    · exact absurd h1 (by decide)
    · exact hca h1
  have hncb : ',' ∉ '-' :: b := by
    intro hm
    rcases List.mem_cons.mp hm with h1 | h1
    · exact absurd h1 (by decide)
    · exact hcb h1
  have hncc : ',' ∉ '+' :: c := by
    intro hm
    rcases List.mem_cons.mp hm with h1 | h1
    · exact absurd h1 (by decide)
    · exact hcc h1
  refine ⟨?_, ?_, ?_⟩
  · have hmem : ',' ∈ '+' :: a ++ ',' :: '-' :: b ++ ',' :: '+' :: c := by simp
    rw [DecodeGBB_tokens (by simp) (pyIntHex16_comma hmem)]
    rw [show '+' :: a ++ ',' :: '-' :: b ++ ',' :: '+' :: c =
      ('+' :: a) ++ ',' :: (('-' :: b) ++ ',' :: ('+' :: c)) from by simp]
    rw [pySplit_append _ hnca, pySplit_append _ hncb, pySplit_no_sep hncc]
    rw [applyAdjustments_plus _ _ hla, applyAdjustments_minus _ _ hlb,
      applyAdjustments_plus _ _ hlc]
    rfl
  · have hane : a ≠ [] := hna
    obtain ⟨x, xs, rfl⟩ : ∃ x xs, a = x :: xs := by
      cases a with
      | nil => exact absurd rfl hane
      | cons x xs => exact ⟨x, xs, rfl⟩
    have hmem : ',' ∈ (x :: xs) ++ ',' :: '-' :: b ++ ',' :: '+' :: c := by simp
    rw [DecodeGBB_tokens (by simp) (pyIntHex16_comma hmem)]
    rw [show (x :: xs) ++ ',' :: '-' :: b ++ ',' :: '+' :: c =
      (x :: xs) ++ ',' :: (('-' :: b) ++ ',' :: ('+' :: c)) from by simp]
    rw [pySplit_append _ hca, pySplit_append _ hncb, pySplit_no_sep hncc]
    rw [applyAdjustments_bare_true _ hla hta hna,
      applyAdjustments_minus _ _ hlb, applyAdjustments_plus _ _ hlc]
    rfl
  · have hane : a ≠ [] := hna
    obtain ⟨x, xs, rfl⟩ : ∃ x xs, a = x :: xs := by
      cases a with
      | nil => exact absurd rfl hane
      | cons x xs => exact ⟨x, xs, rfl⟩
    have hmem : ',' ∈ (x :: xs) ++ ',' :: b := by simp
    rw [DecodeGBB_tokens (by simp) (pyIntHex16_comma hmem)]
    rw [pySplit_append _ hca, pySplit_no_sep hcb]
    rw [applyAdjustments_bare_true _ hla hta hna,
      applyAdjustments_bare_false _ hlb htb hnb]
    rfl

/-- Witness for C3: `"+force-dev-boot-usb,-load-option-roms,+enable-alternate-os"`
on base 3 yields `((3|0x10)&~2)|4 = 21`; the bare variants yield 20 and 18. -/
theorem gbb_token_semantics_witness :
    DecodeGBBFlagsFromOptions 3
        ('+' :: "force-dev-boot-usb".data ++ ',' :: '-' ::
          "load-option-roms".data ++ ',' :: '+' :: "enable-alternate-os".data) =
      .ok 21 ∧
    DecodeGBBFlagsFromOptions 3
        ("force-dev-boot-usb".data ++ ',' :: '-' :: "load-option-roms".data ++
          ',' :: '+' :: "enable-alternate-os".data) = .ok 20 ∧
    DecodeGBBFlagsFromOptions 3
        ("force-dev-boot-usb".data ++ ',' :: "load-option-roms".data) =
      .ok 18 := by
  obtain ⟨h1, h2, h3⟩ := gbb_token_semantics 3 "force-dev-boot-usb".data
    "load-option-roms".data "enable-alternate-os".data 16 2 4 (by decide)
    (by decide) (by decide)
  exact ⟨h1.trans (by decide), h2.trans (by decide), h3.trans (by decide)⟩

/-! ## C4: unknown flag names -/

theorem applyAdjustments_unknown (ts : List (List Char)) :
    ∀ (ub : Bool) (B : Int), (∀ t ∈ ts, t ≠ []) →
      (∃ t ∈ ts, pyDictGet gbb_flag_properties (tokenName t) = none) →
      ∃ n, applyAdjustments ub B ts = .error (.invalidFlag n) ∧
        pyDictGet gbb_flag_properties n = none := by
  induction ts with
  | nil =>
    rintro ub B _ ⟨t, ht, _⟩
    exact absurd ht (List.not_mem_nil t)
  | cons t rest ih =>
    rintro ub B hne ⟨u, hu, hbad⟩
    obtain ⟨c, cs, rfl⟩ : ∃ c cs, t = c :: cs := by
      cases t with
      | nil => exact absurd rfl (hne _ (List.mem_cons_self _ _))
      | cons c cs => exact ⟨c, cs, rfl⟩
    have hnerest : ∀ t ∈ rest, t ≠ [] :=
      fun x hx => hne x (List.mem_cons_of_mem _ hx)
    by_cases hsign : c = '-' ∨ c = '+'
    · cases hlook : pyDictGet gbb_flag_properties cs with
      | none =>
        refine ⟨cs, ?_, hlook⟩
        simp only [applyAdjustments, hlook, hsign, ite_true]
      | some v =>
        have hv : v ≠ 0 := gbb_values_nonzero hlook
        have hurest : u ∈ rest := by
          rcases List.mem_cons.mp hu with h1 | h1
          · subst h1
            rw [tokenName, if_pos hsign, hlook] at hbad
            cases hbad
          · exact h1
        have hbadrest : ∃ t ∈ rest,
            pyDictGet gbb_flag_properties (tokenName t) = none := ⟨u, hurest, hbad⟩
        rcases hsign with hminus | hplus
        · subst hminus
          obtain ⟨n, hn, hl⟩ := ih ub (pyAnd B (pyNot v)) hnerest hbadrest
          refine ⟨n, ?_, hl⟩
          simp +decide only [applyAdjustments, hlook, hv, ite_true, ite_false]
          exact hn
        · subst hplus
          obtain ⟨n, hn, hl⟩ := ih ub (pyOr B v) hnerest hbadrest
          refine ⟨n, ?_, hl⟩
          simp +decide only [applyAdjustments, hlook, hv, ite_true, ite_false]
          exact hn
    · cases hlook : pyDictGet gbb_flag_properties (c :: cs) with
      | none =>
        refine ⟨c :: cs, ?_, hlook⟩
        simp only [applyAdjustments, hlook, hsign, ite_false]
      | some v =>
        have hv : v ≠ 0 := gbb_values_nonzero hlook
        have hurest : u ∈ rest := by
          rcases List.mem_cons.mp hu with h1 | h1
          · subst h1
            rw [tokenName, if_neg hsign, hlook] at hbad
            cases hbad
          · exact h1
        have hbadrest : ∃ t ∈ rest,
            pyDictGet gbb_flag_properties (tokenName t) = none := ⟨u, hurest, hbad⟩
        cases ub with
        | true =>
          obtain ⟨n, hn, hl⟩ := ih false (pyOr 0 v) hnerest hbadrest
          refine ⟨n, ?_, hl⟩
          simp +decide only [applyAdjustments, hlook, hsign, hv, ite_true,
            ite_false]
          exact hn
        | false =>
          obtain ⟨n, hn, hl⟩ := ih false (pyOr B v) hnerest hbadrest
          refine ⟨n, ?_, hl⟩
          simp +decide only [applyAdjustments, hlook, hsign, hv, ite_true,
            ite_false]
          exact hn

/-- C4 amended: for every adjustment string that is not a valid hexadecimal
bitmask, all of whose comma-separated tokens are nonempty, and that contains a
token naming a flag not in `gbb_flag_properties`, the decode raises the
invalid-flag `ValueError` (naming an unknown flag) and returns no result. -/
theorem gbb_unknown_flag_fatal (B : Int) (s : List Char) (hne : s ≠ [])
    (hhex : pyIntHex16 s = none)
    (hts : ∀ t ∈ pySplit ',' s, t ≠ [])
    (hbad : ∃ t ∈ pySplit ',' s,
      pyDictGet gbb_flag_properties (tokenName t) = none) :
    ∃ n, DecodeGBBFlagsFromOptions B s = .error (.invalidFlag n) ∧
      pyDictGet gbb_flag_properties n = none := by
  rw [DecodeGBB_tokens hne hhex]
  exact applyAdjustments_unknown _ true B hts hbad

/-- Whether a decode result is the invalid-flag configuration error. -/
def raisesInvalidFlag : Except GbbError Int → Bool
  | .error (.invalidFlag _) => true
  | _ => false

/-- C4 counterexample: `",not-a-flag"` is not hexadecimal and contains the
unknown-flag token `"not-a-flag"`, yet the decode dies with the uncaught
`IndexError` from `flag[0]` on the empty first token, not with the
invalid-flag configuration error. -/
theorem gbb_unknown_flag_cex :
    (pyIntHex16 (",not-a-flag".data) = none ∧
      "not-a-flag".data ∈ pySplit ',' (",not-a-flag".data) ∧
      pyDictGet gbb_flag_properties (tokenName ("not-a-flag".data)) = none) ∧
    DecodeGBBFlagsFromOptions 0 (",not-a-flag".data) = .error .indexError ∧
    raisesInvalidFlag (DecodeGBBFlagsFromOptions 0 (",not-a-flag".data)) =
      false := by
  decide

/-- Witness for C4 (amended): `"+force-dev-boot-usb,not-a-flag"` on base 7
raises the invalid-flag error for an unknown name. -/
theorem gbb_unknown_flag_witness :
    raisesInvalidFlag
      (DecodeGBBFlagsFromOptions 7 ("+force-dev-boot-usb,not-a-flag".data)) =
      true := by
  obtain ⟨n, hn, _⟩ := gbb_unknown_flag_fatal 7
    ("+force-dev-boot-usb,not-a-flag".data) (by decide) (by decide) (by decide)
    (by decide)
  rw [hn]
  rfl

/-! ## C5/C6: the text-base scan -/

theorem decodeScan_prefix {d : PyBytes} (l₁ : List (Nat × Nat))
    (l₂ : List (Nat × Nat)) (hr : ∀ x ∈ l₁, x.2 + 4 ≤ d.size)
    (hm : ∀ x ∈ l₁, wordAt d x.2 ≠ 0x12345678) :
    decodeScan d false (l₁ ++ l₂) = decodeScan d false l₂ := by
  induction l₁ with
  | nil => rfl
  | cons x rest ih =>
    obtain ⟨s, i⟩ := x
    have h1 : i + 4 ≤ d.size := hr _ (List.mem_cons_self _ _)
    have h2 : wordAt d i ≠ 0x12345678 := hm _ (List.mem_cons_self _ _)
    have ih' := ih (fun x hx => hr x (List.mem_cons_of_mem _ hx))
      (fun x hx => hm x (List.mem_cons_of_mem _ hx))
    simp +decide only [List.cons_append, decodeScan, readWord, h1, h2,
      ite_true, ite_false]
    exact ih'

theorem decodeScan_found {d : PyBytes} {s i s' j : Nat}
    (rest : List (Nat × Nat)) (h1 : i + 4 ≤ d.size) (h2 : j + 4 ≤ d.size)
    (hmark : wordAt d i = 0x12345678) :
    decodeScan d false ((s, i) :: (s', j) :: rest) =
      .ok (some ((wordAt d j : Int) - (s' : Int))) := by
  simp +decide only [decodeScan, readWord, h1, h2, hmark, ite_true, ite_false]

theorem decodeScan_found_last {d : PyBytes} {s i : Nat} (h1 : i + 4 ≤ d.size)
    (hmark : wordAt d i = 0x12345678) :
    decodeScan d false [(s, i)] = .ok none := by
  simp +decide only [decodeScan, readWord, h1, hmark, ite_true, ite_false]

/-- C5 amended: over the 80 scan positions (40 words from offset 0, then 40
from `0x4000`, each carrying the start of its window), provided every scanned
word is inside the buffer: the word scanned immediately after the first
marker hit is returned minus the start of the window that *following* word is
scanned in (so the found-flag persists across the window boundary); a buffer
with no marker at any scanned position yields `None`; and a marker first
found at the very last scanned position also yields `None`. -/
theorem decode_text_base_scan :
    (∀ (d : PyBytes) (pre : List (Nat × Nat)) (s i s' j : Nat)
      (post : List (Nat × Nat)),
      scanOffsets = pre ++ (s, i) :: (s', j) :: post →
      (∀ x ∈ scanOffsets, x.2 + 4 ≤ d.size) →
      (∀ x ∈ pre, wordAt d x.2 ≠ 0x12345678) →
      wordAt d i = 0x12345678 →
      DecodeTextBase d = .ok (some ((wordAt d j : Int) - (s' : Int)))) ∧
    (∀ d : PyBytes, (∀ x ∈ scanOffsets, x.2 + 4 ≤ d.size) →
      (∀ x ∈ scanOffsets, wordAt d x.2 ≠ 0x12345678) →
      DecodeTextBase d = .ok none) ∧
    (∀ (d : PyBytes) (pre : List (Nat × Nat)) (s i : Nat),
      scanOffsets = pre ++ [(s, i)] →
      (∀ x ∈ scanOffsets, x.2 + 4 ≤ d.size) →
      (∀ x ∈ pre, wordAt d x.2 ≠ 0x12345678) →
      wordAt d i = 0x12345678 →
      DecodeTextBase d = .ok none) := by
  refine ⟨?_, ?_, ?_⟩
  · intro d pre s i s' j post heq hr hpre hmark
    rw [heq] at hr
    unfold DecodeTextBase
    rw [heq, decodeScan_prefix pre _ (fun x hx => hr x (List.mem_append_left _ hx)) hpre]
    exact decodeScan_found post
      (hr _ (List.mem_append_right _ (List.mem_cons_self _ _)))
      (hr _ (List.mem_append_right _ (List.mem_cons_of_mem _ (List.mem_cons_self _ _))))
      hmark
  · intro d hr hm
    unfold DecodeTextBase
    have := decodeScan_prefix scanOffsets [] hr hm
    simpa using this
  · intro d pre s i heq hr hpre hmark
    rw [heq] at hr
    unfold DecodeTextBase
    rw [heq, decodeScan_prefix pre _ (fun x hx => hr x (List.mem_append_left _ hx)) hpre]
    exact decodeScan_found_last
      (hr _ (List.mem_append_right _ (List.mem_cons_self _ _))) hmark

/-- Witness for C5 (amended), on the specification's own example: the marker
at offset `0x4000` followed by the word `0x10c000` resolves to `0x108000`. -/
theorem decode_text_base_scan_witness :
    wordAt tbExample 16384 = 0x12345678 ∧
      DecodeTextBase tbExample = .ok (some 0x108000) :=
  ⟨by decide,
    ((decode_text_base_scan.1 tbExample
      ((List.range 40).map fun k => (0, 4 * k)) 16384 16384 16384 16388
      ((List.range 38).map fun k => (16384, 16392 + 4 * k))
      (by decide) (by decide) (by decide) (by decide)).trans (by decide))⟩

/-- C5 counterexample: in `tbEdge` the only marker lies at offset 156, the
last scanned word of the window starting at 0.  The claim says the result is
the next little-endian word minus the start offset of the window in which the
marker was found, i.e. `0x10c000 - 0` (or `0 - 0` reading "next" as offset
160); the code instead returns `0x10c000 - 0x4000 = 0x108000`, because the
found-flag survives into the second window. -/
theorem decode_text_base_cex :
    wordAt tbEdge 156 = 0x12345678 ∧
      ((List.range 39).all fun k => wordAt tbEdge (4 * k) != 0x12345678) =
        true ∧
      DecodeTextBase tbEdge = .ok (some 1081344) ∧
      (1081344 : Int) ≠ 1097728 - 0 ∧ (1081344 : Int) ≠ 0 - 0 := by
  decide

/-- C6 amended: a decoded load address wins over the device-tree value and
warns whenever it is nonzero and differs; the device-tree value is returned
(with no warning) exactly when the decode found nothing, found zero — zero is
falsy in Python, so a decoded 0 is silently dropped — or the two agree. -/
theorem calc_text_base_reconcile :
    (∀ (raw : Int) (d : PyBytes) (t : Int), DecodeTextBase d = .ok (some t) →
      t ≠ 0 → t ≠ pyAnd raw 4294967295 → CalcTextBase raw d = .ok (t, true)) ∧
    (∀ (raw : Int) (d : PyBytes) (r : Int),
      CalcTextBase raw d = .ok (r, false) →
      r = pyAnd raw 4294967295 ∧
        (DecodeTextBase d = .ok none ∨ DecodeTextBase d = .ok (some 0) ∨
          DecodeTextBase d = .ok (some r))) := by
  constructor
  · intro raw d t hdec h0 hne
    have hcond : t ≠ 0 ∧ t ≠ pyAnd raw 4294967295 := ⟨h0, hne⟩
    unfold CalcTextBase
    rw [hdec]
    dsimp only
    rw [if_pos hcond]
  · intro raw d r h
    unfold CalcTextBase at h
    cases hdec : DecodeTextBase d with
    | error e =>
      rw [hdec] at h
      dsimp only at h
      exact Except.noConfusion h
    | ok tb =>
      rw [hdec] at h
      dsimp only at h
      cases tb with
      | none =>
        injection h with h
        have h1 : pyAnd raw 4294967295 = r := congrArg Prod.fst h
        exact ⟨h1.symm, Or.inl rfl⟩
      | some t =>
        dsimp only at h
        by_cases hcond : t ≠ 0 ∧ t ≠ pyAnd raw 4294967295
        · rw [if_pos hcond] at h
          injection h with h
          have h2 : (true : Bool) = false := congrArg Prod.snd h
          exact Bool.noConfusion h2
        · rw [if_neg hcond] at h
          injection h with h
          have h1 : pyAnd raw 4294967295 = r := congrArg Prod.fst h
          refine ⟨h1.symm, ?_⟩
          rcases not_and_or.mp hcond with h0 | hbase
          · have ht : t = 0 := by simpa using h0
            subst ht
            exact Or.inr (Or.inl rfl)
          · have ht : t = pyAnd raw 4294967295 := by simpa using hbase
            exact Or.inr (Or.inr (by rw [ht, h1]))

/-- Witness for C6 (amended): `tbPlain` decodes to `0x10c000`, which is
nonzero and differs from the device-tree value 5, so the decoded value wins
and the warning fires. -/
theorem calc_text_base_reconcile_witness :
    DecodeTextBase tbPlain = .ok (some 1097728) ∧
      CalcTextBase 5 tbPlain = .ok (1097728, true) :=
  ⟨by decide,
    calc_text_base_reconcile.1 5 tbPlain 1097728 (by decide) (by decide)
      (by decide)⟩

/-- C6 counterexample: `tbZero` decodes to the load address 0, which differs
from the device-tree value 5, yet the device-tree value is kept and no
warning is emitted — `if text_base and ...` treats a decoded 0 as "nothing
decoded". -/
theorem calc_text_base_cex :
    DecodeTextBase tbZero = .ok (some 0) ∧ (0 : Int) ≠ 5 ∧
      CalcTextBase 5 tbZero = .ok (5, false) := by
  decide


/-- C7: the absence check is `if not pos:`, which fires only on `pos == 0`.
A blob with no marker at all gives `rfind == -1`, which is truthy, so no
not-found error is raised and the garbage block at position `-1` is parsed —
here it even patches "successfully".  Conversely a blob whose marker sits at
offset 0 is wrongly reported as having no parameter block.  Both contradict
the code's own error message and the specification. -/
theorem exynos_bl2_marker_bug :
    rfindWord bl2NoMarker 0xdeadbeef = -1 ∧
      (ConfigureExynosBl2 dmcEmpty "straps" 4096 storeNoMarker "bl2.bin"
        "/out" "").1 = .ok "/out/updated-spl.bin" ∧
      rfindWord bl2MarkerAt0 0xdeadbeef = 0 ∧
      (ConfigureExynosBl2 dmcEmpty "straps" 4096 storeMarkerAt0 "bl2.bin"
        "/out" "").1 = .error .notFound := by
  decide

/-! ## C8: the checksum invariant -/

theorem sumBytes_congr {a b : PyBytes} (n : Nat)
    (h : ∀ i, i < n → a.byte i = b.byte i) : sumBytes a n = sumBytes b n := by
  induction n with
  | zero => rfl
  | succ k ih =>
    simp only [sumBytes]
    rw [ih fun i hi => h i (Nat.lt_succ_of_lt hi), h k (Nat.lt_succ_self k)]

theorem spliceBytes_size (d : PyBytes) (pos : Nat) (new : List Nat) :
    (spliceBytes d pos new).size =
      min pos d.size + new.length + (d.size - (pos + new.length)) := rfl

/-- The stored checksum word of `_UpdateChecksum`' output, and the
untouched prefix. -/
theorem UpdateChecksum_ok (d : PyBytes) :
    wordAt (UpdateChecksum d) ((UpdateChecksum d).size - 4) =
      sumBytes (UpdateChecksum d) ((UpdateChecksum d).size - 4) % 4294967296 := by
  have hlen : (pack4 (sumBytes d (d.size - 4) % 4294967296)).length = 4 := rfl
  have hsize : (UpdateChecksum d).size = d.size - 4 + 4 := by
    show (spliceBytes d (d.size - 4) _).size = d.size - 4 + 4
    rw [spliceBytes_size, hlen]
    omega
  have hmin : min (d.size - 4) d.size = d.size - 4 := by omega
  have hbelow : ∀ i, i < d.size - 4 → (UpdateChecksum d).byte i = d.byte i := by
    intro i hi
    show (spliceBytes d (d.size - 4) _).byte i = d.byte i
    simp only [spliceBytes]
    rw [if_pos (by omega : i < min (d.size - 4) d.size)]
  have hb : ∀ j, j < 4 → (UpdateChecksum d).byte (d.size - 4 + j) =
      (pack4 (sumBytes d (d.size - 4) % 4294967296)).getD j 0 := by
    intro j hj
    show (spliceBytes d (d.size - 4) _).byte (d.size - 4 + j) = _
    simp only [spliceBytes]
    rw [if_neg (by omega : ¬(d.size - 4 + j < min (d.size - 4) d.size)),
      if_pos (by rw [hlen]; omega)]
    congr 1
    omega
  have h0 : (UpdateChecksum d).byte (d.size - 4) =
      sumBytes d (d.size - 4) % 4294967296 % 256 := by
    simpa [pack4] using hb 0 (by norm_num)
  have h1 : (UpdateChecksum d).byte (d.size - 4 + 1) =
      sumBytes d (d.size - 4) % 4294967296 / 256 % 256 := by
    simpa [pack4] using hb 1 (by norm_num)
  have h2 : (UpdateChecksum d).byte (d.size - 4 + 2) =
      sumBytes d (d.size - 4) % 4294967296 / 65536 % 256 := by
    simpa [pack4] using hb 2 (by norm_num)
  have h3 : (UpdateChecksum d).byte (d.size - 4 + 3) =
      sumBytes d (d.size - 4) % 4294967296 / 16777216 % 256 := by
    simpa [pack4] using hb 3 (by norm_num)
  rw [hsize, Nat.add_sub_cancel, sumBytes_congr (d.size - 4) hbelow]
  unfold wordAt
  rw [h0, h1, h2, h3]
  omega

/-- The checksum property C8 claims of a patched blob. -/
def checksumOk : Option PyBytes → Prop
  | some p => wordAt p (p.size - 4) = sumBytes p (p.size - 4) % 4294967296
  | none => False

/-- C8: whenever `ConfigureExynosBl2` succeeds, the blob it wrote at the
returned path carries, in its final 4 bytes, the little-endian byte-sum
(mod `2^32`) of all preceding bytes. -/
theorem bl2_checksum_invariant (fdt : DmcConfig) (src : String) (sz : Nat)
    (store : FileStore) (orig outdir name path : String)
    (h : (ConfigureExynosBl2 fdt src sz store orig outdir name).1 = .ok path) :
    checksumOk ((ConfigureExynosBl2 fdt src sz store orig outdir name).2 path) := by
  unfold ConfigureExynosBl2 at h ⊢
  cases hread : store orig with
  | none =>
    rw [hread] at h
    dsimp only at h
    exact Except.noConfusion h
  | some data0 =>
    rw [hread] at h
    dsimp only at h ⊢
    by_cases hpos : rfindWord data0 0xdeadbeef = 0
    · rw [if_pos hpos] at h
      exact Except.noConfusion h
    · rw [if_neg hpos] at h ⊢
      cases hupd : UpdateBl2Parameters fdt src sz data0
          (rfindWord data0 0xdeadbeef) with
      | error e =>
        rw [hupd] at h
        dsimp only at h
        exact Except.noConfusion h
      | ok data1 =>
        rw [hupd] at h
        dsimp only at h
        injection h with h
        subst h
        simp only [updateStore]
        rw [if_pos trivial]
        show checksumOk (some (UpdateChecksum data1))
        simpa [checksumOk] using UpdateChecksum_ok data1

/-- Witness for C8: the concrete successful run on `bl2Good`. -/
theorem bl2_checksum_invariant_witness :
    checksumOk ((ConfigureExynosBl2 dmcEmpty "straps" 4096 storeGood "bl2.bin"
      "/out" "").2 "/out/updated-spl.bin") :=
  bl2_checksum_invariant dmcEmpty "straps" 4096 storeGood "bl2.bin" "/out" ""
    "/out/updated-spl.bin" (by decide)

/-! ## C9: fresh copy, original untouched -/

/-- C9: `ConfigureExynosBl2` writes only to its own output path
`outdir/updated-spl<name>.bin`: every other path — in particular the original
BL2 blob, whenever its path differs from the output path — holds exactly its
previous contents; and a successful run returns the output path, whose
contents are the patched block with its recomputed checksum. -/
theorem bl2_fresh_copy_frame :
    (∀ (fdt : DmcConfig) (src : String) (sz : Nat) (store : FileStore)
      (orig outdir name p : String), p ≠ bl2OutPath outdir name →
      (ConfigureExynosBl2 fdt src sz store orig outdir name).2 p = store p) ∧
    (∀ (fdt : DmcConfig) (src : String) (sz : Nat) (store : FileStore)
      (orig outdir name path : String),
      (ConfigureExynosBl2 fdt src sz store orig outdir name).1 = .ok path →
      path = bl2OutPath outdir name ∧
      ∃ d0 d1, store orig = some d0 ∧
        UpdateBl2Parameters fdt src sz d0 (rfindWord d0 3735928559) = .ok d1 ∧
        (ConfigureExynosBl2 fdt src sz store orig outdir name).2 path =
          some (UpdateChecksum d1)) := by
  constructor
  · intro fdt src sz store orig outdir name p hp
    unfold ConfigureExynosBl2
    cases hread : store orig with
    | none => rfl
    | some data0 =>
      dsimp only
      by_cases hpos : rfindWord data0 0xdeadbeef = 0
      · rw [if_pos hpos]
        show updateStore store (bl2OutPath outdir name) data0 p = store p
        simp only [updateStore]
        rw [if_neg hp]
      · rw [if_neg hpos]
        cases hupd : UpdateBl2Parameters fdt src sz data0
            (rfindWord data0 0xdeadbeef) with
        | error e =>
          show updateStore store (bl2OutPath outdir name) data0 p = store p
          simp only [updateStore]
          rw [if_neg hp]
        | ok data1 =>
          show updateStore (updateStore store (bl2OutPath outdir name) data0)
            (bl2OutPath outdir name) (UpdateChecksum data1) p = store p
          simp only [updateStore]
          rw [if_neg hp, if_neg hp]
  · intro fdt src sz store orig outdir name path h
    unfold ConfigureExynosBl2 at h ⊢
    cases hread : store orig with
    | none =>
      rw [hread] at h
      dsimp only at h
      exact Except.noConfusion h
    | some data0 =>
      rw [hread] at h
      dsimp only at h ⊢
      by_cases hpos : rfindWord data0 0xdeadbeef = 0
      · rw [if_pos hpos] at h
        exact Except.noConfusion h
      · rw [if_neg hpos] at h ⊢
        cases hupd : UpdateBl2Parameters fdt src sz data0
            (rfindWord data0 0xdeadbeef) with
        | error e =>
          rw [hupd] at h
          dsimp only at h
          exact Except.noConfusion h
        | ok data1 =>
          rw [hupd] at h
          dsimp only at h
          injection h with h
          subst h
          refine ⟨rfl, data0, data1, rfl, hupd, ?_⟩
          simp only [updateStore]
          rw [if_pos trivial]

/-! ## C1: the re-sign size invariant of `_CreateBootStub` -/

/-- C1: with a post-load payload configured, `_CreateBootStub` re-signs after
rewriting the device tree's `postload-text-offset` to the first signed
buffer's length; if the re-signed buffer's byte length differs from the first
signed buffer's, the `CmdError('Signed file size changed ...')` is raised and
no final image is produced, while on equal lengths the final image is the
re-signed buffer with the payload appended. -/
theorem bootstub_resign_size_invariant (raw : Int) (uboot : PyBytes)
    (fdtBytes : Nat → PyBytes) (pl : PyBytes) (sign : Int → PyBytes → PyBytes)
    (tb : Int) (w : Bool) (s1 s2 : PyBytes)
    (hcalc : CalcTextBase raw uboot = .ok (tb, w))
    (hs1 : s1 = sign tb (pyAppend uboot (fdtBytes 4294967295)))
    (hs2 : s2 = sign tb (pyAppend uboot (fdtBytes s1.size))) :
    (s1.size ≠ s2.size →
      CreateBootStub raw uboot fdtBytes (some pl) sign =
        .error (.signedSizeChanged s1.size s2.size)) ∧
    (s1.size = s2.size →
      CreateBootStub raw uboot fdtBytes (some pl) sign =
        .ok (pyAppend (pyAppend uboot (fdtBytes 4294967295)) pl,
          pyAppend s2 pl)) := by
  subst hs1
  subst hs2
  constructor
  · intro hne
    unfold CreateBootStub
    rw [hcalc]
    dsimp only
    rw [if_pos hne]
  · intro heq
    unfold CreateBootStub
    rw [hcalc]
    dsimp only
    rw [if_neg fun hc => hc heq]

/-- Witness for C1: an identity signer over a device tree whose serialized
size depends on the offset value makes the two signed sizes differ (9 vs 13),
and the pipeline fails with the size-changed error. -/
theorem bootstub_resign_size_invariant_witness :
    CreateBootStub 0 tbZero (fun n => ⟨n % 5 + 1, fun _ => 0⟩) (some tbZero)
      (fun _ d => d) = .error (.signedSizeChanged 9 13) :=
  (bootstub_resign_size_invariant 0 tbZero (fun n => ⟨n % 5 + 1, fun _ => 0⟩)
    tbZero (fun _ d => d) 0 false _ _ (by decide) rfl rfl).1 (by decide)

/-- Witness for C9: on the concrete run over `bl2Good`, the original
`bl2.bin` contents are untouched and the run returns the fresh path. -/
theorem bl2_fresh_copy_frame_witness :
    (ConfigureExynosBl2 dmcEmpty "straps" 4096 storeGood "bl2.bin" "/out"
      "").2 "bl2.bin" = storeGood "bl2.bin" ∧
    (ConfigureExynosBl2 dmcEmpty "straps" 4096 storeGood "bl2.bin" "/out"
      "").1 = .ok "/out/updated-spl.bin" :=
  ⟨bl2_fresh_copy_frame.1 dmcEmpty "straps" 4096 storeGood "bl2.bin" "/out" ""
    "bl2.bin" (by decide), by decide⟩

